import Mathlib

/-!
Shallow embedding of `src/mlProject/utils/common.py` (the single source file
of the repository): configuration loading (`read_yaml`), directory creation
(`create_directories`), JSON persistence (`save_json` / `load_json`), binary
persistence (`save_object`, `save_bin` / `load_bin`), file-size reporting
(`get_size`), and the hyperparameter-search evaluation helper
(`evaluate_model`).

Modelling conventions:
* Python values moved around by these utilities are restricted to the
  JSON/YAML-like fragment `JVal` (None, bool, int, str, list, dict with
  string keys).  Floats are outside the embedding.
* Python dicts are association lists with Python's insertion-order update
  semantics (`dictInsert`); a dict reachable from Python code always has
  distinct keys, which theorems carry as a `Nodup` hypothesis where needed.
* The filesystem is an explicit state `FS` (a set of existing directories
  and a map from paths to file contents); paths are relative strings and
  raising a Python exception is returning `.error` in `Except PyErr`.
* External library calls are embedded at the granularity the source uses
  them: `yaml.safe_load` is external, so a YAML file is stored as its parsed
  value (`FileData.yamlDoc`, with an empty file parsing to `None`);
  `joblib`/`pickle` write a faithful serialization of the object, so a binary
  artifact is stored as the object itself (`FileData.binObj`); `json.dump` /
  `json.load` are genuinely textual, so JSON files are stored as text and the
  serializer/parser are implemented below (`jsonDumps` / `jsonLoads`).
-/

namespace MLProject

/-- Python values restricted to the JSON/YAML-like fragment the utilities
move around: `None`, booleans, integers, strings, lists, and string-keyed
dicts. -/
inductive JVal where
  | null
  | bool (b : Bool)
  | int (n : Int)
  | str (s : String)
  | arr (items : List JVal)
  | obj (entries : List (String × JVal))
deriving Inhabited

/-- Python exceptions raised by the embedded code, by class (with the
message where a claim depends on it). -/
inductive PyErr where
  | valueError (msg : String)
  | typeError (msg : String)
  | keyError (key : String)
  | fileNotFoundError (path : String)
  | jsonDecodeError
  | boxValueError (msg : String)
deriving Inhabited

/-- Lookup in a Python dict represented as an association list (first match;
a dict built by Python code has distinct keys, so this is the unique match). -/
def dictLookup {α : Type} : List (String × α) → String → Option α
  | [], _ => none
  | (k', v') :: t, k => if k' = k then some v' else dictLookup t k

/-- Python `d[k] = v`: an existing key keeps its position and gets the new
value, a new key is appended at the end (insertion order). -/
def dictInsert {α : Type} : List (String × α) → String → α → List (String × α)
  | [], k, v => [(k, v)]
  | (k', v') :: t, k, v => if k' = k then (k, v) :: t else (k', v') :: dictInsert t k v

/-- An attribute-accessible mapping, the result of `Box(...)` from python-box. -/
structure Box where
  entries : List (String × JVal)

/-- Unpacking `k, v = item` inside `Box.__init__`'s iterable branch
(python-box 6.x), followed by `self.__setattr__(k, v)`:
a two-element list with a string head yields that pair; a two-element list
with a non-string head fails at `setattr` (attribute names must be strings);
a list of any other length fails to unpack with a builtin `ValueError`; a
two-character string unpacks to its two characters; iterating a dict yields
its keys, so a two-key dict unpacks to its two keys; scalars (`None`, bools,
ints) are not iterable, a builtin `TypeError`. -/
def unpackPair : JVal → Except PyErr (String × JVal)
  | .arr [.str k, v] => .ok (k, v)
  | .arr [_, _] => .error (.typeError "attribute name must be string")
  | .arr _ => .error (.valueError "values to unpack")
  | .str s =>
      match s.data with
      | [c1, c2] => .ok (String.mk [c1], .str (String.mk [c2]))
      | _ => .error (.valueError "values to unpack")
  | .obj [(k1, _), (k2, _)] => .ok (k1, .str k2)
  | .obj _ => .error (.valueError "values to unpack")
  | _ => .error (.typeError "cannot unpack non-iterable object")

/-- Construction `Box(content)` (python-box 6.x `__init__` on one positional
argument): a string raises `BoxValueError`; a mapping is copied; any other
iterable is consumed as key-value pairs (each item unpacked by
`unpackPair`, duplicates overwriting in insertion order); anything else —
`None`, a bool, an int — raises `BoxValueError` ("first argument must be
mapping or iterable"). -/
def boxInit : JVal → Except PyErr Box
  | .str _ => .error (.boxValueError "cannot extrapolate box from string")
  | .obj entries => .ok ⟨entries⟩
  | .arr items => do
      let pairs ← items.mapM unpackPair
      return ⟨pairs.foldl (fun acc kv => dictInsert acc kv.1 kv.2) []⟩
  | _ => .error (.boxValueError "first argument must be mapping or iterable")

/-! ## The filesystem state -/

/-- Contents of one file, at the granularity each utility observes it:
JSON files are genuine text; a YAML file is its parsed value (`yaml.safe_load`
is external; an empty file parses to `None` i.e. `.yamlDoc .null`); a
joblib/pickle artifact is the serialized object itself (the codec is a
faithful, invertible serialization, so it is embedded as the identity). -/
inductive FileData where
  | text (s : String)
  | yamlDoc (y : JVal)
  | binObj (v : JVal)

/-- Filesystem state: the existing directories (the current directory is the
empty path and always exists) and the existing files.  Paths are relative
strings; path strings never collide with directory names. -/
structure FS where
  dirs : List String
  files : List (String × FileData)

/-- Characters of a path before its last slash (helper for `dirname`). -/
def dirnameChars (cs : List Char) : List Char :=
  match cs.reverse.dropWhile (fun c => c ≠ '/') with
  | [] => []
  | _ :: t => t.reverse

/-- Python `os.path.dirname` on a relative path: everything before the last
slash, the empty string when the path is a bare filename. -/
def dirname (p : String) : String := String.mk (dirnameChars p.data)

/-- Split a character list at slashes (helper for `ancestorsOf`). -/
def splitSlash : List Char → List (List Char)
  | [] => [[]]
  | c :: t =>
      match splitSlash t with
      | [] => [[]]
      | g :: gs => if c = '/' then [] :: g :: gs else (c :: g) :: gs

/-- Join path components with slashes (helper for `ancestorsOf`). -/
def joinSlash : List (List Char) → List Char
  | [] => []
  | [g] => g
  | g :: gs => g ++ '/' :: joinSlash gs

/-- Every ancestor prefix of a path, including the path itself:
`os.makedirs` creates all of them. -/
def ancestorsOf (p : String) : List String :=
  let parts := splitSlash p.data
  (List.range parts.length).map (fun i => String.mk (joinSlash (parts.take (i + 1))))

/-- Does this directory exist? -/
def FS.hasDir (fs : FS) (d : String) : Bool := fs.dirs.contains d

/-- Can a file at `p` be created, i.e. does the directory that would contain
it exist?  A bare filename goes to the current directory, which exists. -/
def parentOk (fs : FS) (p : String) : Bool := dirname p = "" || fs.hasDir (dirname p)

/-- Opening a path for writing (`open(path, "w")` / `open(path, "wb")` /
`joblib.dump`): fails with `FileNotFoundError` when the containing directory
does not exist; otherwise creates or replaces the file. -/
def FS.writeFile (fs : FS) (p : String) (d : FileData) : Except PyErr FS :=
  if parentOk fs p then .ok { fs with files := dictInsert fs.files p d }
  else .error (.fileNotFoundError p)

/-- Opening an existing file for reading: fails with `FileNotFoundError`
when no file exists at the path. -/
def FS.readFile (fs : FS) (p : String) : Except PyErr FileData :=
  match dictLookup fs.files p with
  | some d => .ok d
  | none => .error (.fileNotFoundError p)

/-- Python `os.makedirs(name, exist_ok=True)`: the empty path raises
`FileNotFoundError` (`mkdir('')` fails and `''` is not a directory, so
`exist_ok` does not apply); a nonempty path creates itself and all its
ancestors, succeeding whether or not they already exist. -/
def makedirs (name : String) (fs : FS) : Except PyErr FS :=
  if name = "" then .error (.fileNotFoundError "")
  else .ok { fs with dirs := ancestorsOf name ++ fs.dirs }

/-! ## The utility functions (common.py) -/

/-- Embedding of `read_yaml` (common.py lines 17-41): open the file and
`yaml.safe_load` it (the file is stored as its parsed value; a missing file
raises through the final `except Exception as e: raise e` unchanged), then
return `Box(content)`; a `BoxValueError` from that construction is turned
into `ValueError("yaml dosyası boş")`, every other exception is re-raised
as-is. -/
def read_yaml (path : String) (fs : FS) : Except PyErr Box :=
  match fs.readFile path with
  | .error e => .error e
  | .ok (.yamlDoc y) =>
      match boxInit y with
      | .error (.boxValueError _) => .error (.valueError "yaml dosyası boş")
      | .error e => .error e
      | .ok b => .ok b
  | .ok _ => .error (.typeError "not a yaml document")

/-- Embedding of `create_directories` (common.py lines 45-57): run
`os.makedirs(path, exist_ok=True)` for each path in order (the `verbose`
print is log-only and not modelled); the first failure propagates. -/
def create_directories (paths : List String) (fs : FS) : Except PyErr FS :=
  match paths with
  | [] => .ok fs
  | p :: rest =>
      match makedirs p fs with
      | .error e => .error e
      | .ok fs' => create_directories rest fs'

/-! ## The JSON codec

`json.dump(data, f, indent=4)` with the library defaults (`ensure_ascii=True`,
separators `(',', ': ')` when an indent is given) and `json.load`, embedded
textually.  Numbers are restricted to the integer fragment of `JVal` (floats
are outside the embedding), so the serializer below never emits a fraction or
exponent and the parser only accepts integer literals. -/

/-- Hexadecimal digit character (lowercase, as CPython's encoder emits). -/
def hexChar (n : Nat) : Char := if n < 10 then Char.ofNat (48 + n) else Char.ofNat (87 + n)

/-- A `\uXXXX` escape for a code unit `v < 0x10000`. -/
def uEscape (v : Nat) : List Char :=
  ['\\', 'u', hexChar (v / 4096 % 16), hexChar (v / 256 % 16), hexChar (v / 16 % 16),
   hexChar (v % 16)]

/-- One character as CPython's `ensure_ascii` encoder writes it: the two-char
escapes for quote, backslash and the five named control characters; `\uXXXX`
for the other control characters and for everything non-ASCII, using a UTF-16
surrogate pair beyond the basic multilingual plane; printable ASCII verbatim. -/
def escChar (c : Char) : List Char :=
  if c = '"' then ['\\', '"']
  else if c = '\\' then ['\\', '\\']
  else if c.toNat = 8 then ['\\', 'b']
  else if c.toNat = 9 then ['\\', 't']
  else if c.toNat = 10 then ['\\', 'n']
  else if c.toNat = 12 then ['\\', 'f']
  else if c.toNat = 13 then ['\\', 'r']
  else if c.toNat < 32 then uEscape c.toNat
  else if c.toNat < 127 then [c]
  else if c.toNat < 65536 then uEscape c.toNat
  else uEscape (55296 + (c.toNat - 65536) / 1024) ++ uEscape (56320 + (c.toNat - 65536) % 1024)

/-- A JSON string literal: quote, escaped characters, quote. -/
def strLit (s : String) : List Char := '"' :: (s.data.flatMap escChar ++ ['"'])

/-- Decimal digit character. -/
def digitChar (d : Nat) : Char := Char.ofNat (48 + d)

/-- Decimal digits of a natural number, most significant first, no leading
zeros (`0` is `"0"`). -/
def natChars (n : Nat) : List Char :=
  if _h : n < 10 then [digitChar n]
  else natChars (n / 10) ++ [digitChar (n % 10)]
termination_by n
decreasing_by exact Nat.div_lt_self (by omega) (by omega)

/-- Decimal form of an integer, as CPython prints it. -/
def intChars (i : Int) : List Char :=
  if i < 0 then '-' :: natChars i.natAbs else natChars i.natAbs

/-- Indentation for nesting level `k`: `4 * k` spaces (`indent=4`). -/
def pad (k : Nat) : List Char := List.replicate (4 * k) ' '

mutual
/-- Serialization of one value at nesting level `lvl`, exactly as
`json.dump(·, indent=4)` lays it out: empty containers are `[]` / `{}` on
one line; nonempty containers put each element on its own line indented one
level deeper, elements separated by `,`, keys followed by `: `, and the
closing bracket indented at the container's own level. -/
def encVal (lvl : Nat) : JVal → List Char
  | .null => "null".data
  | .bool b => (if b then "true" else "false").data
  | .int n => intChars n
  | .str s => strLit s
  | .arr [] => ['[', ']']
  | .arr (x :: xs) =>
      '[' :: '\n' :: (pad (lvl + 1) ++ encItems (lvl + 1) x xs) ++ '\n' :: (pad lvl ++ [']'])
  | .obj [] => ['{', '}']
  | .obj (e :: es) =>
      '{' :: '\n' :: (pad (lvl + 1) ++ encEntries (lvl + 1) e es) ++ '\n' :: (pad lvl ++ ['}'])
termination_by v => sizeOf v
decreasing_by all_goals (simp; try omega)
/-- Serialization of a nonempty run of array elements at level `lvl`, joined
by `",\n" ++ pad lvl`. -/
def encItems (lvl : Nat) : JVal → List JVal → List Char
  | x, [] => encVal lvl x
  | x, y :: ys => encVal lvl x ++ ',' :: '\n' :: (pad lvl ++ encItems lvl y ys)
termination_by x xs => 1 + sizeOf x + sizeOf xs
decreasing_by all_goals (simp; try omega)
/-- Serialization of a nonempty run of object entries at level `lvl`. -/
def encEntries (lvl : Nat) : (String × JVal) → List (String × JVal) → List Char
  | (k, v), [] => strLit k ++ ':' :: ' ' :: encVal lvl v
  | (k, v), f :: fs =>
      strLit k ++ ':' :: ' ' :: encVal lvl v ++ ',' :: '\n' :: (pad lvl ++ encEntries lvl f fs)
termination_by e es => 1 + sizeOf e + sizeOf es
decreasing_by all_goals (simp; try omega)
end

/-- Text written by `json.dump(v, f, indent=4)`. -/
def jsonDumps (v : JVal) : String := String.mk (encVal 0 v)

/-- Whitespace as the JSON grammar knows it. -/
def isWsChar (c : Char) : Bool := c = ' ' || c = '\n' || c = '\t' || c = '\r'

/-- Drop leading JSON whitespace. -/
def wsSkip : List Char → List Char
  | [] => []
  | c :: t => if isWsChar c then wsSkip t else c :: t

/-- Decimal digit test. -/
def isDigitCh (c : Char) : Bool := 48 ≤ c.toNat && c.toNat ≤ 57

/-- Longest digit prefix and the rest. -/
def digitRun : List Char → List Char × List Char
  | [] => ([], [])
  | c :: t =>
      if isDigitCh c then
        let p := digitRun t
        (c :: p.1, p.2)
      else ([], c :: t)

/-- Value of a digit string, most significant first. -/
def digitsVal (ds : List Char) : Nat := ds.foldl (fun a c => a * 10 + (c.toNat - 48)) 0

/-- Value of one hexadecimal digit, either case. -/
def hexDigVal (c : Char) : Option Nat :=
  if 48 ≤ c.toNat ∧ c.toNat ≤ 57 then some (c.toNat - 48)
  else if 97 ≤ c.toNat ∧ c.toNat ≤ 102 then some (c.toNat - 87)
  else if 65 ≤ c.toNat ∧ c.toNat ≤ 70 then some (c.toNat - 55)
  else none

/-- Value of four hexadecimal digits. -/
def hex4 (a b c d : Char) : Option Nat := do
  let x1 ← hexDigVal a
  let x2 ← hexDigVal b
  let x3 ← hexDigVal c
  let x4 ← hexDigVal d
  return ((x1 * 16 + x2) * 16 + x3) * 16 + x4

/-- Decode of one short escape character. -/
def unescapeCh : Char → Option Char
  | 'b' => some (Char.ofNat 8)
  | 't' => some (Char.ofNat 9)
  | 'n' => some (Char.ofNat 10)
  | 'f' => some (Char.ofNat 12)
  | 'r' => some (Char.ofNat 13)
  | '"' => some '"'
  | '/' => some '/'
  | '\\' => some '\\'
  | _ => none

/-- Parse of a JSON string body after the opening quote, as `json.load` scans
it: literal characters (raw control characters rejected, `strict=True`),
short escapes, and `\uXXXX` with a high surrogate demanding a following low
surrogate (a lone surrogate is rejected: it denotes no Unicode scalar value,
so no `Char` of this embedding's strings can have produced it). -/
def strBody : List Char → Option (List Char × List Char)
  | [] => none
  | '"' :: r => some ([], r)
  | '\\' :: 'u' :: a :: b :: c :: d :: r =>
      match hex4 a b c d with
      | none => none
      | some v =>
          if v < 55296 ∨ 57343 < v then
            (strBody r).map (fun p => (Char.ofNat v :: p.1, p.2))
          else if v < 56320 then
            match r with
            | '\\' :: 'u' :: a2 :: b2 :: c2 :: d2 :: r2 =>
                match hex4 a2 b2 c2 d2 with
                | none => none
                | some w =>
                    if 56320 ≤ w ∧ w ≤ 57343 then
                      (strBody r2).map (fun p =>
                        (Char.ofNat (65536 + (v - 55296) * 1024 + (w - 56320)) :: p.1, p.2))
                    else none
            | _ => none
          else none
  | '\\' :: e :: r =>
      match unescapeCh e with
      | some ch => (strBody r).map (fun p => (ch :: p.1, p.2))
      | none => none
  | c :: r =>
      if c.toNat < 32 then none
      else (strBody r).map (fun p => (c :: p.1, p.2))

/-- Parse of an integer literal: optional minus, then a digit run. -/
def parseIntTok (cs : List Char) : Option (Int × List Char) :=
  match cs with
  | '-' :: r =>
      match digitRun r with
      | ([], _) => none
      | (ds, r1) => some (-(digitsVal ds : Int), r1)
  | _ =>
      match digitRun cs with
      | ([], _) => none
      | (ds, r1) => some ((digitsVal ds : Int), r1)

/-- Duplicate keys collapse as Python dict construction does: the position of
the first insertion, the value of the last. -/
def buildDict (es : List (String × JVal)) : List (String × JVal) :=
  es.foldl (fun acc kv => dictInsert acc kv.1 kv.2) []

/-- Input that cannot extend an integer literal to its left: empty, or headed
by a non-digit. -/
def numStop : List Char → Bool
  | [] => true
  | c :: _ => !isDigitCh c

mutual
/-- Parse of one JSON value (fuel-indexed; `jsonLoads` supplies enough fuel
for any input).  Mirrors `json.load`: leading whitespace is skipped, then the
value is dispatched on its first character; an object's members become a
Python dict (`buildDict`). -/
def parseVal (fuel : Nat) (cs : List Char) : Option (JVal × List Char) :=
  match fuel with
  | 0 => none
  | fuel + 1 =>
    match wsSkip cs with
    | 'n' :: 'u' :: 'l' :: 'l' :: r => some (.null, r)
    | 'f' :: 'a' :: 'l' :: 's' :: 'e' :: r => some (.bool false, r)
    | 't' :: 'r' :: 'u' :: 'e' :: r => some (.bool true, r)
    | '"' :: r => (strBody r).map (fun p => (.str (String.mk p.1), p.2))
    | '[' :: r =>
        (match wsSkip r with
         | [] => none
         | c :: r1 =>
             if c = ']' then some (.arr [], r1)
             else
               match parseItems fuel (c :: r1) with
               | some (xs, r2) => some (.arr xs, r2)
               | none => none)
    | '{' :: r =>
        (match wsSkip r with
         | [] => none
         | c :: r1 =>
             if c = '}' then some (.obj [], r1)
             else
               match parseEntries fuel (c :: r1) with
               | some (es, r2) => some (.obj (buildDict es), r2)
               | none => none)
    | other =>
        match parseIntTok other with
        | some (n, r) => some (.int n, r)
        | none => none
/-- Parse of one-or-more comma-separated array elements up to `]`. -/
def parseItems (fuel : Nat) (cs : List Char) : Option (List JVal × List Char) :=
  match fuel with
  | 0 => none
  | fuel + 1 =>
    match parseVal fuel cs with
    | none => none
    | some (v, r) =>
        match wsSkip r with
        | ',' :: r1 =>
            (match parseItems fuel r1 with
             | some (vs, r2) => some (v :: vs, r2)
             | none => none)
        | ']' :: r1 => some ([v], r1)
        | _ => none
/-- Parse of one-or-more comma-separated object members up to `}`. -/
def parseEntries (fuel : Nat) (cs : List Char) :
    Option (List (String × JVal) × List Char) :=
  match fuel with
  | 0 => none
  | fuel + 1 =>
    match wsSkip cs with
    | '"' :: r =>
        (match strBody r with
         | none => none
         | some (k, r1) =>
             match wsSkip r1 with
             | ':' :: r2 =>
                 (match parseVal fuel r2 with
                  | none => none
                  | some (v, r3) =>
                      match wsSkip r3 with
                      | ',' :: r4 =>
                          (match parseEntries fuel r4 with
                           | some (es, r5) => some ((String.mk k, v) :: es, r5)
                           | none => none)
                      | '}' :: r4 => some ([(String.mk k, v)], r4)
                      | _ => none)
             | _ => none)
    | _ => none
end

/-- Result of `json.load`: one value and nothing but whitespace after it. -/
def jsonLoads (s : String) : Option JVal :=
  match parseVal (s.data.length + 1) s.data with
  | some (v, r) => if wsSkip r = [] then some v else none
  | none => none

/-- Distinctness of a key list, decidably. -/
def distinctKeys : List String → Bool
  | [] => true
  | k :: ks => (!ks.contains k) && distinctKeys ks

mutual
/-- Well-formedness of a `JVal` as an image of live Python data: every dict
in it has distinct keys (a Python dict cannot hold a key twice). -/
def jsonWF : JVal → Bool
  | .null => true
  | .bool _ => true
  | .int _ => true
  | .str _ => true
  | .arr xs => jsonWFItems xs
  | .obj es => distinctKeys (es.map Prod.fst) && jsonWFEntries es
/-- Well-formedness of array items (see `jsonWF`). -/
def jsonWFItems : List JVal → Bool
  | [] => true
  | x :: xs => jsonWF x && jsonWFItems xs
/-- Well-formedness of object entries (see `jsonWF`). -/
def jsonWFEntries : List (String × JVal) → Bool
  | [] => true
  | e :: es => jsonWF e.2 && jsonWFEntries es
end

/-- Embedding of `save_json` (common.py lines 62-70): open the path for
writing and `json.dump(data, f, indent=4)`; the success log is not modelled. -/
def save_json (path : String) (data : List (String × JVal)) (fs : FS) : Except PyErr FS :=
  fs.writeFile path (.text (jsonDumps (.obj data)))

/-- Embedding of `load_json` (common.py lines 75-89): open the path,
`json.load` it (a malformed file raises a decode error), and return
`Box(content)` — whose own exceptions propagate unchanged, there is no
`try` here. -/
def load_json (path : String) (fs : FS) : Except PyErr Box :=
  match fs.readFile path with
  | .error e => .error e
  | .ok (.text s) =>
      match jsonLoads s with
      | none => .error .jsonDecodeError
      | some v => boxInit v
  | .ok _ => .error .jsonDecodeError

/-- Python's `round` on an exact rational: round half to even.  `get_size`
computes `round(os.path.getsize(path)/1024)`; the float division is exact
for any real file size (below `2^53` bytes), so the rational semantics is
the faithful one there. -/
def pyRound (x : ℚ) : ℤ :=
  let f : ℤ := ⌊x⌋
  if x - f < 1 / 2 then f
  else if 1 / 2 < x - f then f + 1
  else if f % 2 = 0 then f else f + 1

/-- Embedding of `get_size` (common.py lines 93-105) on the byte count the
external `os.path.getsize(path)` reports: the string `"~ "`, then
`round(n/1024)`, then `" KB"`. -/
def get_size (n : Nat) : String := "~ " ++ toString (pyRound ((n : ℚ) / 1024)) ++ " KB"

/-- Modelled from the spec: "file-size reporting returns the expected rounded
kilobyte string", with the claim's reading of `round` — banker's rounding of
`n/1024`, written arithmetically: the quotient, plus one exactly when the
remainder exceeds half of 1024, or equals half of it and the quotient is odd. -/
def specRoundKB (n : Nat) : ℤ :=
  (n / 1024 : ℕ) +
    (if 512 < n % 1024 ∨ (n % 1024 = 512 ∧ (n / 1024) % 2 = 1) then 1 else 0)

/-! ## Model evaluation

`evaluate_model` drives `RandomizedSearchCV` and scikit-learn estimators.
Data is embedded over exact rationals (the claims are about which
computation is performed, not float rounding).  The two library
computations whose outputs the loop consumes are opaque and become
parameters of the embedding: `searchBest` is the `best_params_` attribute a
fitted `RandomizedSearchCV(model, para, cv=3)` exposes (the search clones
the estimator, so the caller's model object is untouched by it), and
`predictFn` is what a fitted estimator predicts on a feature matrix. -/

/-- Feature matrix. -/
abbrev Mat := List (List ℚ)

/-- Label / prediction vector. -/
abbrev Vec := List ℚ

/-- An estimator object: its current hyperparameters and, when it has been
fit, the data it was fit on.  Hyperparameter values are integers (the search
spaces of this pipeline are integer grids). -/
structure MLModel where
  hyper : List (String × Int)
  trainedOn : Option (Mat × Vec)

/-- A hyperparameter search space: candidate values per parameter name. -/
abbrev ParamSpace := List (String × List Int)

/-- Python `model.set_params(**best)`: each given parameter is overwritten,
parameters not mentioned keep their values, in place. -/
def set_params (m : MLModel) (best : List (String × Int)) : MLModel :=
  { m with hyper := best.foldl (fun h kv => dictInsert h kv.1 kv.2) m.hyper }

/-- Python `model.fit(X, y)`: the estimator becomes fitted on exactly that
data, in place. -/
def fit (m : MLModel) (x : Mat) (y : Vec) : MLModel :=
  { m with trainedOn := some (x, y) }

/-- Mean of a vector. -/
def mean (l : Vec) : ℚ := l.sum / l.length

/-- Embedding of `sklearn.metrics.r2_score` on exact rationals:
`1 - Σ(y - ŷ)² / Σ(y - ȳ)²`, with the constant-target convention (a zero
denominator scores 1 when the residuals are zero too, else 0). -/
def r2_score (yTrue yPred : Vec) : ℚ :=
  let u := ((yTrue.zip yPred).map (fun p => (p.1 - p.2) ^ 2)).sum
  let v := (yTrue.map (fun y => (y - mean yTrue) ^ 2)).sum
  if v = 0 then (if u = 0 then 1 else 0) else 1 - u / v

/-- One pass of the `evaluate_model` loop body over the remaining models, in
registry order: look the model's name up in `param` (a missing name raises
`KeyError` there and then), run the search (`searchBest`), overwrite the
model's parameters with the best found, refit it on the training data,
score its test predictions with `r2_score`, and record the score under the
model's name.  Returns the mutated model objects (the loop mutates them in
place through the caller's dict) alongside the report. -/
def evalLoop (searchBest : MLModel → ParamSpace → Mat → Vec → List (String × Int))
    (predictFn : MLModel → Mat → Vec)
    (xTrain : Mat) (yTrain : Vec) (xTest : Mat) (yTest : Vec)
    (param : List (String × ParamSpace)) :
    List (String × MLModel) → Except PyErr (List (String × MLModel) × List (String × ℚ))
  | [] => .ok ([], [])
  | (name, model) :: rest =>
      match dictLookup param name with
      | none => .error (.keyError name)
      | some para =>
          let best := searchBest model para xTrain yTrain
          let refit := fit (set_params model best) xTrain yTrain
          let score := r2_score yTest (predictFn refit xTest)
          match evalLoop searchBest predictFn xTrain yTrain xTest yTest param rest with
          | .error e => .error e
          | .ok (ms, rep) => .ok ((name, refit) :: ms, (name, score) :: rep)

/-- Embedding of `evaluate_model` (common.py lines 182-205): the loop above
over the models dict, whose `except Exception as e: raise e` wrapper
re-raises unchanged. -/
def evaluate_model (searchBest : MLModel → ParamSpace → Mat → Vec → List (String × Int))
    (predictFn : MLModel → Mat → Vec)
    (xTrain : Mat) (yTrain : Vec) (xTest : Mat) (yTest : Vec)
    (models : List (String × MLModel)) (param : List (String × ParamSpace)) :
    Except PyErr (List (String × MLModel) × List (String × ℚ)) :=
  evalLoop searchBest predictFn xTrain yTrain xTest yTest param models

/-- Embedding of `save_object` (common.py lines 108-130): take the dirname
of the target path, `os.makedirs` it with `exist_ok=True`, then open the
file in binary mode and `pickle.dump` the object; any exception is re-raised
unchanged by the `except Exception as e: raise e` wrapper. -/
def save_object (file_path : String) (obj : JVal) (fs : FS) : Except PyErr FS :=
  match makedirs (dirname file_path) fs with
  | .error e => .error e
  | .ok fs1 => fs1.writeFile file_path (.binObj obj)

/-- Embedding of `save_bin` (common.py lines 134-161): `joblib.dump(value=data,
filename=path)` — a direct write with no directory creation; a failure is
logged and re-raised unchanged. -/
def save_bin (data : JVal) (path : String) (fs : FS) : Except PyErr FS :=
  fs.writeFile path (.binObj data)

/-- Embedding of `load_bin` (common.py lines 166-178): `joblib.load(path)`;
a missing file raises, and a file that is not a joblib artifact fails inside
the library. -/
def load_bin (path : String) (fs : FS) : Except PyErr JVal :=
  match fs.readFile path with
  | .ok (.binObj v) => .ok v
  | .ok _ => .error (.valueError "not a joblib artifact")
  | .error e => .error e

/-- A YAML document whose top level is a bare scalar (`None`, a boolean, a
number, or a string). -/
def isScalarDoc : JVal → Bool
  | .null => true
  | .bool _ => true
  | .int _ => true
  | .str _ => true
  | .arr _ => false
  | .obj _ => false

/-! ## Theorems -/

/-- Looking a key up right after inserting it finds the inserted value. -/
theorem dictLookup_dictInsert_self {α : Type} (l : List (String × α)) (k : String) (v : α) :
    dictLookup (dictInsert l k v) k = some v := by
  induction l with
  | nil => simp [dictInsert, dictLookup]
  | cons hd t ih =>
      obtain ⟨k', v'⟩ := hd
      by_cases h : k' = k <;> simp [dictInsert, dictLookup, h, ih]

/-- C3: for every path whose file exists and is empty — its YAML content
parses to nothing, i.e. `None` — `read_yaml` raises
`ValueError("yaml dosyası boş")` rather than returning a mapping. -/
theorem read_yaml_empty_file (path : String) (fs : FS)
    (h : dictLookup fs.files path = some (.yamlDoc .null)) :
    read_yaml path fs = .error (.valueError "yaml dosyası boş") := by
  simp [read_yaml, FS.readFile, h, boxInit]

/-- Witness for `read_yaml_empty_file` at a one-file filesystem. -/
theorem read_yaml_empty_file_witness :
    read_yaml "config.yaml" ⟨[], [("config.yaml", .yamlDoc .null)]⟩ =
      .error (.valueError "yaml dosyası boş") :=
  read_yaml_empty_file "config.yaml" ⟨[], [("config.yaml", .yamlDoc .null)]⟩ (by simp [dictLookup])

/-- C8 counterexample: a file whose top-level YAML value is a list of
scalars is a non-mapping parse result, yet `read_yaml` does not raise the
empty-file `ValueError` on it: unpacking the first list item inside
`Box.__init__`'s iterable branch raises a `TypeError`, which the reader
re-raises unchanged. -/
theorem read_yaml_scalar_list_cex :
    read_yaml "params.yaml"
        ⟨[], [("params.yaml", .yamlDoc (.arr [.int 1, .int 2, .int 3]))]⟩ =
      .error (.typeError "cannot unpack non-iterable object") ∧
    PyErr.typeError "cannot unpack non-iterable object" ≠
      PyErr.valueError "yaml dosyası boş" := by
  constructor
  · rfl
  · intro h
    cases h

/-- C8 (amended): `read_yaml` raises the empty-file
`ValueError("yaml dosyası boş")` not only for empty files but for every file
whose top-level YAML value is a bare scalar (`None`, boolean, number, or
string) — but not for every non-mapping value: a list of scalars raises a
`TypeError` instead (see `read_yaml_scalar_list_cex`). -/
theorem read_yaml_scalar_doc (path : String) (fs : FS) (y : JVal)
    (h : dictLookup fs.files path = some (.yamlDoc y)) (hs : isScalarDoc y = true) :
    read_yaml path fs = .error (.valueError "yaml dosyası boş") := by
  cases y <;> simp_all [isScalarDoc, read_yaml, FS.readFile, boxInit]

/-- Witness for `read_yaml_scalar_doc` at a file holding a bare number. -/
theorem read_yaml_scalar_doc_witness :
    read_yaml "n.yaml" ⟨[], [("n.yaml", .yamlDoc (.int 5))]⟩ =
      .error (.valueError "yaml dosyası boş") :=
  read_yaml_scalar_doc "n.yaml" ⟨[], [("n.yaml", .yamlDoc (.int 5))]⟩ (.int 5)
    (by simp [dictLookup]) (by simp [isScalarDoc])

/-- C10: `save_object` on a path with no directory component raises: it
unconditionally runs `os.makedirs` on the dirname of the path, and
`os.makedirs("")` raises `FileNotFoundError`. -/
theorem save_object_bare_filename (file_path : String) (obj : JVal) (fs : FS)
    (h : dirname file_path = "") :
    save_object file_path obj fs = .error (.fileNotFoundError "") := by
  simp [save_object, makedirs, h]

/-- Witness for `save_object_bare_filename` at a bare filename. -/
theorem save_object_bare_filename_witness :
    save_object "model.pkl" (.int 0) ⟨[], []⟩ = .error (.fileNotFoundError "") :=
  save_object_bare_filename "model.pkl" (.int 0) ⟨[], []⟩ (by decide)

/-- C2 counterexample: `save_bin` does not create parent directories — on an
empty filesystem, writing to a path inside a not-yet-existing directory
fails with `FileNotFoundError` instead of succeeding. -/
theorem save_bin_missing_parent_cex :
    save_bin (.int 0) "artifacts/model.joblib" ⟨[], []⟩ =
      .error (.fileNotFoundError "artifacts/model.joblib") := by
  simp [save_bin, FS.writeFile]
  decide

/-- C2 (amended): `save_bin` writes directly, creating no directories: it
fails with `FileNotFoundError` exactly when the directory that would contain
`path` does not exist, and otherwise writes the artifact (it is
`save_object` that creates parent directories first). -/
theorem save_bin_write_spec (data : JVal) (path : String) (fs : FS) :
    (parentOk fs path = false →
      save_bin data path fs = .error (.fileNotFoundError path)) ∧
    (parentOk fs path = true →
      save_bin data path fs = .ok ⟨fs.dirs, dictInsert fs.files path (.binObj data)⟩) := by
  constructor <;> intro h <;> simp [save_bin, FS.writeFile, h]

/-- Witness for `save_bin_write_spec`: the same write fails on an empty
filesystem and succeeds once the directory exists. -/
theorem save_bin_write_spec_witness :
    save_bin (.int 0) "a/b" ⟨[], []⟩ = .error (.fileNotFoundError "a/b") ∧
    save_bin (.int 0) "a/b" ⟨["a"], []⟩ = .ok ⟨["a"], [("a/b", .binObj (.int 0))]⟩ :=
  ⟨(save_bin_write_spec (.int 0) "a/b" ⟨[], []⟩).1 (by decide),
   (save_bin_write_spec (.int 0) "a/b" ⟨["a"], []⟩).2 (by decide)⟩

/-- C5: writing a binary artifact with `save_bin` and reading it back with
`load_bin` from the resulting filesystem returns the saved value, whenever
the parent directory of the path exists. -/
theorem save_bin_load_bin_roundtrip (data : JVal) (path : String) (fs : FS)
    (h : parentOk fs path = true) :
    ∃ fs', save_bin data path fs = .ok fs' ∧ load_bin path fs' = .ok data := by
  have hw : save_bin data path fs = .ok ⟨fs.dirs, dictInsert fs.files path (.binObj data)⟩ := by
    simp [save_bin, FS.writeFile, h]
  refine ⟨_, hw, ?_⟩
  simp [load_bin, FS.readFile, dictLookup_dictInsert_self]

/-- Witness for `save_bin_load_bin_roundtrip` at a file in the working
directory of an empty filesystem. -/
theorem save_bin_load_bin_roundtrip_witness :
    ∃ fs', save_bin (.str "model") "model.joblib" ⟨[], []⟩ = .ok fs' ∧
      load_bin "model.joblib" fs' = .ok (.str "model") :=
  save_bin_load_bin_roundtrip (.str "model") "model.joblib" ⟨[], []⟩ (by decide)

/-- Specification of the whole evaluation loop when every model name has a
parameter space: the mutated registry pairs each name with its model refit
with the best-found parameters, and the report pairs each name with the
held-out r2 score of that refit model's test predictions. -/
theorem evalLoop_spec (searchBest : MLModel → ParamSpace → Mat → Vec → List (String × Int))
    (predictFn : MLModel → Mat → Vec)
    (xTrain : Mat) (yTrain : Vec) (xTest : Mat) (yTest : Vec)
    (param : List (String × ParamSpace)) (models : List (String × MLModel))
    (hk : ∀ n ∈ models.map Prod.fst, (dictLookup param n).isSome = true) :
    evalLoop searchBest predictFn xTrain yTrain xTest yTest param models =
      .ok (models.map (fun p =>
             (p.1, fit (set_params p.2
                     (searchBest p.2 ((dictLookup param p.1).getD []) xTrain yTrain))
                   xTrain yTrain)),
           models.map (fun p =>
             (p.1, r2_score yTest (predictFn
                     (fit (set_params p.2
                        (searchBest p.2 ((dictLookup param p.1).getD []) xTrain yTrain))
                      xTrain yTrain) xTest)))) := by
  induction models with
  | nil => rfl
  | cons hd rest ih =>
      obtain ⟨name, model⟩ := hd
      have hname : (dictLookup param name).isSome = true := hk name (by simp)
      obtain ⟨para, hpara⟩ := Option.isSome_iff_exists.mp hname
      have hrest : ∀ n ∈ rest.map Prod.fst, (dictLookup param n).isSome = true :=
        fun n hn => hk n (by simp [hn])
      simp [evalLoop, hpara, ih hrest]

/-- C1: when `param` has an entry for every key of `models`, the report
`evaluate_model` returns maps exactly the keys of `models`, and each model
name to the held-out r2 score of its model after the randomized search over
its parameter space on the training data, the refit with the best-found
parameters, and the scoring of its predictions on the test data. -/
theorem evaluate_model_report_spec
    (searchBest : MLModel → ParamSpace → Mat → Vec → List (String × Int))
    (predictFn : MLModel → Mat → Vec)
    (xTrain : Mat) (yTrain : Vec) (xTest : Mat) (yTest : Vec)
    (models : List (String × MLModel)) (param : List (String × ParamSpace))
    (_hnodup : (models.map Prod.fst).Nodup)
    (hk : ∀ n ∈ models.map Prod.fst, (dictLookup param n).isSome = true) :
    ∃ ms, evaluate_model searchBest predictFn xTrain yTrain xTest yTest models param =
      .ok (ms, models.map (fun p =>
        (p.1, r2_score yTest (predictFn
                (fit (set_params p.2
                   (searchBest p.2 ((dictLookup param p.1).getD []) xTrain yTrain))
                 xTrain yTrain) xTest)))) :=
  ⟨_, evalLoop_spec searchBest predictFn xTrain yTrain xTest yTest param models hk⟩

/-- Witness for `evaluate_model_report_spec` at a one-model registry (the
trivial estimator scores 1 on empty data). -/
theorem evaluate_model_report_spec_witness :
    ∃ ms, evaluate_model (fun m _ _ _ => m.hyper) (fun _ _ => ([] : Vec))
        ([] : Mat) ([] : Vec) ([] : Mat) ([] : Vec)
        [("rf", (⟨[], none⟩ : MLModel))] [("rf", ([] : ParamSpace))] =
      .ok (ms, [("rf", (1 : ℚ))]) := by
  simpa [dictLookup, set_params, fit, r2_score, mean] using
    evaluate_model_report_spec (fun m _ _ _ => m.hyper) (fun _ _ => ([] : Vec))
      ([] : Mat) ([] : Vec) ([] : Mat) ([] : Vec)
      [("rf", (⟨[], none⟩ : MLModel))] [("rf", ([] : ParamSpace))]
      (by decide) (by decide)

/-- C9: under the same keying hypothesis, the caller's model objects are
mutated in place: after the call each model holds the best-found parameters
laid over its previous ones and is fit on the training data, while the
registry's keys and order are unchanged. -/
theorem evaluate_model_mutates_models
    (searchBest : MLModel → ParamSpace → Mat → Vec → List (String × Int))
    (predictFn : MLModel → Mat → Vec)
    (xTrain : Mat) (yTrain : Vec) (xTest : Mat) (yTest : Vec)
    (models : List (String × MLModel)) (param : List (String × ParamSpace))
    (_hnodup : (models.map Prod.fst).Nodup)
    (hk : ∀ n ∈ models.map Prod.fst, (dictLookup param n).isSome = true) :
    ∃ rep, evaluate_model searchBest predictFn xTrain yTrain xTest yTest models param =
      .ok (models.map (fun p =>
        (p.1, { hyper := (searchBest p.2 ((dictLookup param p.1).getD []) xTrain yTrain).foldl
                  (fun h kv => dictInsert h kv.1 kv.2) p.2.hyper,
                trainedOn := some (xTrain, yTrain) })), rep) :=
  ⟨_, evalLoop_spec searchBest predictFn xTrain yTrain xTest yTest param models hk⟩

/-- Witness for `evaluate_model_mutates_models` at a one-model registry. -/
theorem evaluate_model_mutates_models_witness :
    ∃ rep, evaluate_model (fun m _ _ _ => m.hyper) (fun _ _ => ([] : Vec))
        ([] : Mat) ([] : Vec) ([] : Mat) ([] : Vec)
        [("rf", (⟨[], none⟩ : MLModel))] [("rf", ([] : ParamSpace))] =
      .ok ([("rf", (⟨[], some (([] : Mat), ([] : Vec))⟩ : MLModel))], rep) := by
  simpa [dictLookup, set_params, fit] using
    evaluate_model_mutates_models (fun m _ _ _ => m.hyper) (fun _ _ => ([] : Vec))
      ([] : Mat) ([] : Vec) ([] : Mat) ([] : Vec)
      [("rf", (⟨[], none⟩ : MLModel))] [("rf", ([] : ParamSpace))]
      (by decide) (by decide)

/-- C6: if some key of `models` is missing from `param`, `evaluate_model`
fails at that lookup: it raises a `KeyError` (for a model name absent from
`param`) and returns no report. -/
theorem evaluate_model_missing_param_key
    (searchBest : MLModel → ParamSpace → Mat → Vec → List (String × Int))
    (predictFn : MLModel → Mat → Vec)
    (xTrain : Mat) (yTrain : Vec) (xTest : Mat) (yTest : Vec)
    (models : List (String × MLModel)) (param : List (String × ParamSpace))
    (h : ∃ n ∈ models.map Prod.fst, dictLookup param n = none) :
    ∃ n, n ∈ models.map Prod.fst ∧ dictLookup param n = none ∧
      evaluate_model searchBest predictFn xTrain yTrain xTest yTest models param =
        .error (.keyError n) := by
  induction models with
  | nil => simp at h
  | cons hd rest ih =>
      obtain ⟨name, model⟩ := hd
      match hpara : dictLookup param name with
      | none =>
          exact ⟨name, by simp, hpara, by simp [evaluate_model, evalLoop, hpara]⟩
      | some para =>
          have hr : ∃ n ∈ rest.map Prod.fst, dictLookup param n = none := by
            obtain ⟨n, hn, hnone⟩ := h
            have hn' : n = name ∨ n ∈ rest.map Prod.fst := List.mem_cons.mp hn
            rcases hn' with heq | hmem
            · rw [heq, hpara] at hnone
              cases hnone
            · exact ⟨n, hmem, hnone⟩
          obtain ⟨n, hn, hnone, heval⟩ := ih hr
          have heval' : evalLoop searchBest predictFn xTrain yTrain xTest yTest param rest =
              .error (.keyError n) := heval
          refine ⟨n, by simp [hn], hnone, ?_⟩
          simp [evaluate_model, evalLoop, hpara, heval']

/-- Witness for `evaluate_model_missing_param_key`: a registry key with no
entry in the parameter mapping. -/
theorem evaluate_model_missing_param_key_witness :
    ∃ n, n ∈ ([("rf", (⟨[], none⟩ : MLModel))].map Prod.fst) ∧
      dictLookup ([] : List (String × ParamSpace)) n = none ∧
      evaluate_model (fun m _ _ _ => m.hyper) (fun _ _ => []) [] [] [] []
        [("rf", ⟨[], none⟩)] [] = .error (.keyError n) :=
  evaluate_model_missing_param_key (fun m _ _ _ => m.hyper) (fun _ _ => []) [] [] [] []
    [("rf", ⟨[], none⟩)] [] (by simp [dictLookup])

/-- Rounding an exact `n/1024` half-to-even agrees with the arithmetic
quotient-remainder characterization. -/
theorem pyRound_div_1024 (n : Nat) : pyRound ((n : ℚ) / 1024) = specRoundKB n := by
  have h1024 : (0 : ℚ) < 1024 := by norm_num
  have hrlt : n % 1024 < 1024 := Nat.mod_lt _ (by norm_num)
  have hn : 1024 * (n / 1024) + n % 1024 = n := Nat.div_add_mod n 1024
  have hcast : (1024 : ℚ) * ((n / 1024 : ℕ) : ℚ) + ((n % 1024 : ℕ) : ℚ) = (n : ℚ) := by
    exact_mod_cast congrArg (fun m : ℕ => (m : ℚ)) hn
  have hr0 : (0 : ℚ) ≤ ((n % 1024 : ℕ) : ℚ) := by positivity
  have hrq : ((n % 1024 : ℕ) : ℚ) < 1024 := by exact_mod_cast hrlt
  have hfloor : ⌊(n : ℚ) / 1024⌋ = ((n / 1024 : ℕ) : ℤ) := by
    rw [Int.floor_eq_iff, Int.cast_natCast]
    constructor
    · rw [le_div_iff₀ h1024]
      linarith
    · rw [div_lt_iff₀ h1024]
      linarith
  have hfrac : (n : ℚ) / 1024 - (((n / 1024 : ℕ) : ℤ) : ℚ) = ((n % 1024 : ℕ) : ℚ) / 1024 := by
    rw [Int.cast_natCast, eq_div_iff (ne_of_gt h1024), sub_mul,
      div_mul_cancel₀ _ (ne_of_gt h1024)]
    linarith
  simp only [pyRound, specRoundKB, hfloor, hfrac]
  rcases lt_trichotomy (n % 1024) 512 with hlt | heq | hgt
  · have hhalf : ((n % 1024 : ℕ) : ℚ) / 1024 < 1 / 2 := by
      rw [div_lt_div_iff h1024 (by norm_num)]
      have h2 : (n % 1024) * 2 < 1 * 1024 := by omega
      exact_mod_cast h2
    have hcond : ¬(512 < n % 1024 ∨ (n % 1024 = 512 ∧ (n / 1024) % 2 = 1)) := by omega
    rw [if_pos hhalf, if_neg hcond]
    omega
  · have hhalf : ((n % 1024 : ℕ) : ℚ) / 1024 = 1 / 2 := by
      rw [heq]
      norm_num
    have hn1 : ¬(((n % 1024 : ℕ) : ℚ) / 1024 < 1 / 2) := by
      rw [hhalf]
      exact lt_irrefl _
    have hn2 : ¬((1 : ℚ) / 2 < ((n % 1024 : ℕ) : ℚ) / 1024) := by
      rw [hhalf]
      exact lt_irrefl _
    rw [if_neg hn1, if_neg hn2]
    by_cases hq2 : (n / 1024) % 2 = 0
    · have hcond : ¬(512 < n % 1024 ∨ (n % 1024 = 512 ∧ (n / 1024) % 2 = 1)) := by omega
      have hpar : ((n / 1024 : ℕ) : ℤ) % 2 = 0 := by omega
      rw [if_pos hpar, if_neg hcond]
      omega
    · have hcond : 512 < n % 1024 ∨ (n % 1024 = 512 ∧ (n / 1024) % 2 = 1) := by omega
      have hpar : ¬(((n / 1024 : ℕ) : ℤ) % 2 = 0) := by omega
      rw [if_neg hpar, if_pos hcond]
  · have hhalf : (1 : ℚ) / 2 < ((n % 1024 : ℕ) : ℚ) / 1024 := by
      rw [div_lt_div_iff (by norm_num) h1024]
      have h2 : 1 * 1024 < (n % 1024) * 2 := by omega
      exact_mod_cast h2
    have hnlt : ¬(((n % 1024 : ℕ) : ℚ) / 1024 < 1 / 2) := by linarith
    have hcond : 512 < n % 1024 ∨ (n % 1024 = 512 ∧ (n / 1024) % 2 = 1) := by omega
    rw [if_neg hnlt, if_pos hhalf, if_pos hcond]

/-- C7: for a file of `n` bytes, `get_size` returns exactly `"~ "`, then
`round(n/1024)` under Python's round — half rounds to the even neighbour —
then `" KB"` (`specRoundKB` writes that rounding arithmetically). -/
theorem get_size_spec (n : Nat) :
    get_size n = "~ " ++ toString (specRoundKB n) ++ " KB" := by
  rw [get_size, pyRound_div_1024]

/-! ### Character, whitespace and digit lemmas for the JSON codec -/

/-- Validity of a character's code point: below the surrogate block, or
strictly between it and the Unicode ceiling. -/
theorem char_toNat_valid (c : Char) :
    c.toNat < 55296 ∨ (57343 < c.toNat ∧ c.toNat < 1114112) := c.valid

/-- Skipping whitespace passes over a whitespace head. -/
theorem wsSkip_cons_ws {c : Char} (t : List Char) (h : isWsChar c = true) :
    wsSkip (c :: t) = wsSkip t := by
  simp [wsSkip, h]

/-- Skipping whitespace stops at a non-whitespace head. -/
theorem wsSkip_cons_not {c : Char} (t : List Char) (h : isWsChar c = false) :
    wsSkip (c :: t) = c :: t := by
  simp [wsSkip, h]

/-- Leading spaces are skipped. -/
theorem wsSkip_spaces (m : Nat) (x : List Char) :
    wsSkip (List.replicate m ' ' ++ x) = wsSkip x := by
  induction m with
  | zero => simp
  | succ k ih => simpa [List.replicate_succ, wsSkip, isWsChar] using ih

/-- Leading indentation is skipped. -/
theorem wsSkip_pad (k : Nat) (x : List Char) : wsSkip (pad k ++ x) = wsSkip x :=
  wsSkip_spaces (4 * k) x

/-- A digit character cannot be any character that fails the digit test. -/
theorem isDigitCh_ne {c x : Char} (h : isDigitCh c = true) (hx : isDigitCh x = false) :
    c ≠ x := by
  intro he
  rw [he, hx] at h
  cases h

/-- A digit character is not whitespace. -/
theorem digit_not_ws {c : Char} (h : isDigitCh c = true) : isWsChar c = false := by
  simp only [isWsChar, Bool.or_eq_false_iff, decide_eq_false_iff_not]
  refine ⟨⟨⟨?_, ?_⟩, ?_⟩, ?_⟩ <;> (intro he; subst he; exact absurd h (by decide))

/-- The code and digit-test facts for each decimal digit character. -/
theorem digitChar_facts : ∀ d, d < 10 →
    (digitChar d).toNat = 48 + d ∧ isDigitCh (digitChar d) = true := by decide

/-- Each hexadecimal digit character decodes to its value. -/
theorem hexDigVal_hexChar : ∀ d, d < 16 → hexDigVal (hexChar d) = some d := by decide

/-- One-step unfolding of `natChars` as a plain conditional. -/
theorem natChars_eq (n : Nat) :
    natChars n = if n < 10 then [digitChar n] else natChars (n / 10) ++ [digitChar (n % 10)] := by
  rw [natChars]
  by_cases h : n < 10 <;> simp [h]

/-- A number renders to at least one character. -/
theorem natChars_ne_nil (n : Nat) : natChars n ≠ [] := by
  rw [natChars_eq]
  by_cases h : n < 10 <;> simp [h]

/-- Every character of a rendered number is a digit. -/
theorem natChars_digits (n : Nat) : ∀ c ∈ natChars n, isDigitCh c = true := by
  induction n using Nat.strong_induction_on with
  | _ n ih =>
      rw [natChars_eq]
      by_cases h : n < 10
      · rw [if_pos h]
        intro c hc
        rw [List.mem_singleton] at hc
        exact hc ▸ (digitChar_facts n h).2
      · rw [if_neg h]
        intro c hc
        rcases List.mem_append.mp hc with hc | hc
        · exact ih (n / 10) (Nat.div_lt_self (by omega) (by omega)) c hc
        · rw [List.mem_singleton] at hc
          exact hc ▸ (digitChar_facts (n % 10) (Nat.mod_lt _ (by omega))).2

/-- A rendered number in head-tail form, with a digit head. -/
theorem natChars_cons (n : Nat) : ∃ c t, natChars n = c :: t ∧ isDigitCh c = true := by
  cases hcn : natChars n with
  | nil => exact absurd hcn (natChars_ne_nil n)
  | cons c t =>
      refine ⟨c, t, rfl, natChars_digits n c ?_⟩
      rw [hcn]
      simp

/-- Reading one more trailing digit multiplies the accumulated value by ten. -/
theorem digitsVal_append_digit (l : List Char) (c : Char) :
    digitsVal (l ++ [c]) = digitsVal l * 10 + (c.toNat - 48) := by
  simp [digitsVal, List.foldl_append]

/-- The decimal render of a number reads back to it. -/
theorem digitsVal_natChars (n : Nat) : digitsVal (natChars n) = n := by
  induction n using Nat.strong_induction_on with
  | _ n ih =>
      rw [natChars_eq]
      by_cases h : n < 10
      · rw [if_pos h]
        simp only [digitsVal, List.foldl_cons, List.foldl_nil]
        rw [(digitChar_facts n h).1]
        omega
      · rw [if_neg h, digitsVal_append_digit,
          ih (n / 10) (Nat.div_lt_self (by omega) (by omega)),
          (digitChar_facts (n % 10) (Nat.mod_lt _ (by omega))).1]
        omega

/-- A digit run stops immediately on input that cannot extend a number. -/
theorem digitRun_stop {cs : List Char} (h : numStop cs = true) : digitRun cs = ([], cs) := by
  match cs with
  | [] => rfl
  | c :: t =>
      have hc : isDigitCh c = false := by simpa [numStop] using h
      simp [digitRun, hc]

/-- A digit run consumes exactly a block of digits followed by a stop. -/
theorem digitRun_run (ds : List Char) (hd : ∀ c ∈ ds, isDigitCh c = true)
    (rest : List Char) (hrest : numStop rest = true) :
    digitRun (ds ++ rest) = (ds, rest) := by
  induction ds with
  | nil => simpa using digitRun_stop hrest
  | cons c t ih =>
      have hc : isDigitCh c = true := hd c (by simp)
      have ht := ih (fun x hx => hd x (by simp [hx]))
      simp [digitRun, hc, ht]

/-- The integer-literal parse inverts the integer render whenever the
remainder cannot extend the number. -/
theorem parseIntTok_intChars (i : Int) (rest : List Char) (h : numStop rest = true) :
    parseIntTok (intChars i ++ rest) = some (i, rest) := by
  rw [intChars]
  by_cases hi : i < 0
  · rw [if_pos hi]
    have hdr := digitRun_run (natChars i.natAbs) (natChars_digits _) rest h
    obtain ⟨c, t, hct, _⟩ := natChars_cons i.natAbs
    have hdv : digitsVal (c :: t) = i.natAbs := by
      rw [← hct, digitsVal_natChars]
    rw [hct, List.cons_append] at hdr
    rw [hct]
    simp only [List.cons_append, parseIntTok, hdr, hdv, Option.some.injEq, Prod.mk.injEq]
    exact ⟨by omega, trivial⟩
  · rw [if_neg hi]
    obtain ⟨c, t, hct, hcdig⟩ := natChars_cons i.natAbs
    have hcne : c ≠ '-' := isDigitCh_ne hcdig (by decide)
    have hdr := digitRun_run (natChars i.natAbs) (natChars_digits _) rest h
    have hdv : digitsVal (c :: t) = i.natAbs := by
      rw [← hct, digitsVal_natChars]
    rw [hct, List.cons_append] at hdr
    rw [hct, List.cons_append]
    simp only [parseIntTok]
    split
    · rename_i r heq
      exact absurd (List.head_eq_of_cons_eq heq) hcne
    · rw [hdr]
      show some ((digitsVal (c :: t) : Int), rest) = some (i, rest)
      rw [hdv]
      have hni : (i.natAbs : Int) = i := by omega
      rw [hni]

/-- Four rendered hex digits decode back to the code unit below `2^16`. -/
theorem hex4_uEscape (v : Nat) (h : v < 65536) :
    hex4 (hexChar (v / 4096 % 16)) (hexChar (v / 256 % 16))
      (hexChar (v / 16 % 16)) (hexChar (v % 16)) = some v := by
  have h16 : ∀ k : Nat, k % 16 < 16 := fun k => Nat.mod_lt _ (by omega)
  have e1 := hexDigVal_hexChar (v / 4096 % 16) (h16 _)
  have e2 := hexDigVal_hexChar (v / 256 % 16) (h16 _)
  have e3 := hexDigVal_hexChar (v / 16 % 16) (h16 _)
  have e4 := hexDigVal_hexChar (v % 16) (h16 _)
  simp only [hex4, e1, e2, e3, e4, Option.bind_eq_bind, Option.some_bind,
    Option.pure_def, Option.some.injEq]
  omega

/-- A `\uXXXX` escape of a non-surrogate code unit parses back to that
character, and string parsing continues behind it. -/
theorem strBody_uEscape (v : Nat) (hv : v < 65536) (hns : v < 55296 ∨ 57343 < v)
    (tail : List Char) :
    strBody (uEscape v ++ tail) = (strBody tail).map (fun p => (Char.ofNat v :: p.1, p.2)) := by
  rw [uEscape]
  simp only [List.cons_append, List.nil_append]
  simp only [strBody]
  rw [hex4_uEscape v hv]
  simp only [if_pos hns]

/-- Parsing undoes the escaping of any single character. -/
theorem strBody_escChar (c : Char) (tail : List Char) :
    strBody (escChar c ++ tail) = (strBody tail).map (fun p => (c :: p.1, p.2)) := by
  by_cases hq : c = '"'
  · subst hq
    rfl
  by_cases hb : c = '\\'
  · subst hb
    rfl
  by_cases h8 : c.toNat = 8
  · have hc : Char.ofNat 8 = c := by rw [← h8, Char.ofNat_toNat]
    subst hc
    rfl
  by_cases h9 : c.toNat = 9
  · have hc : Char.ofNat 9 = c := by rw [← h9, Char.ofNat_toNat]
    subst hc
    rfl
  by_cases h10 : c.toNat = 10
  · have hc : Char.ofNat 10 = c := by rw [← h10, Char.ofNat_toNat]
    subst hc
    rfl
  by_cases h12 : c.toNat = 12
  · have hc : Char.ofNat 12 = c := by rw [← h12, Char.ofNat_toNat]
    subst hc
    rfl
  by_cases h13 : c.toNat = 13
  · have hc : Char.ofNat 13 = c := by rw [← h13, Char.ofNat_toNat]
    subst hc
    rfl
  by_cases hctl : c.toNat < 32
  · have hesc : escChar c = uEscape c.toNat := by
      rw [escChar]
      simp only [if_neg hq, if_neg hb, if_neg h8, if_neg h9, if_neg h10, if_neg h12,
        if_neg h13, if_pos hctl]
    rw [hesc, strBody_uEscape c.toNat (by omega) (by omega), Char.ofNat_toNat]
  by_cases hpr : c.toNat < 127
  · have hesc : escChar c = [c] := by
      rw [escChar]
      simp only [if_neg hq, if_neg hb, if_neg h8, if_neg h9, if_neg h10, if_neg h12,
        if_neg h13, if_neg hctl, if_pos hpr]
    rw [hesc, List.cons_append, strBody.eq_def]
    simp [hq, hb, hctl]
  by_cases hbmp : c.toNat < 65536
  · have hesc : escChar c = uEscape c.toNat := by
      rw [escChar]
      simp only [if_neg hq, if_neg hb, if_neg h8, if_neg h9, if_neg h10, if_neg h12,
        if_neg h13, if_neg hctl, if_neg hpr, if_pos hbmp]
    have hns : c.toNat < 55296 ∨ 57343 < c.toNat := by
      rcases char_toNat_valid c with hv | hv
      · exact Or.inl hv
      · exact Or.inr hv.1
    rw [hesc, strBody_uEscape c.toNat hbmp hns, Char.ofNat_toNat]
  · have hesc : escChar c =
        uEscape (55296 + (c.toNat - 65536) / 1024) ++ uEscape (56320 + (c.toNat - 65536) % 1024) := by
      rw [escChar]
      simp only [if_neg hq, if_neg hb, if_neg h8, if_neg h9, if_neg h10, if_neg h12,
        if_neg h13, if_neg hctl, if_neg hpr, if_neg hbmp]
    have hceil : c.toNat < 1114112 := by
      rcases char_toNat_valid c with hv | hv
      · omega
      · exact hv.2
    set hi := 55296 + (c.toNat - 65536) / 1024 with hhidef
    set lo := 56320 + (c.toNat - 65536) % 1024 with hlodef
    have hno : ¬(hi < 55296 ∨ 57343 < hi) := by omega
    have hhi : hi < 56320 := by omega
    have hlo : 56320 ≤ lo ∧ lo ≤ 57343 := by
      constructor <;> omega
    rw [hesc, List.append_assoc, uEscape]
    simp only [List.cons_append, List.nil_append]
    simp only [strBody]
    rw [hex4_uEscape hi (by omega)]
    simp only [if_neg hno, if_pos hhi]
    rw [uEscape]
    simp only [List.cons_append, List.nil_append]
    simp only [hex4_uEscape lo (by omega), if_pos hlo]
    have harith : 65536 + (hi - 55296) * 1024 + (lo - 56320) = c.toNat := by omega
    rw [harith, Char.ofNat_toNat]

/-- Parsing a fully escaped character list stops exactly at the closing
quote and recovers the characters. -/
theorem strBody_encoded (l : List Char) (rest : List Char) :
    strBody (l.flatMap escChar ++ '"' :: rest) = some (l, rest) := by
  induction l with
  | nil => rfl
  | cons c t ih =>
      rw [List.flatMap_cons, List.append_assoc, strBody_escChar, ih]
      rfl

/-! ### Dict lemmas and head lemmas for the round-trip -/

/-- The decidable key-distinctness test is `Nodup` of the keys. -/
theorem distinctKeys_iff (ks : List String) : distinctKeys ks = true ↔ ks.Nodup := by
  induction ks with
  | nil => simp [distinctKeys]
  | cons k t ih =>
      simp only [distinctKeys, Bool.and_eq_true, Bool.not_eq_true', List.nodup_cons, ih]
      constructor
      · rintro ⟨hc, hd⟩
        refine ⟨fun hm => ?_, hd⟩
        have h2 : t.contains k = true := List.elem_iff.mpr hm
        rw [h2] at hc
        cases hc
      · rintro ⟨hm, hd⟩
        refine ⟨?_, hd⟩
        rw [← Bool.not_eq_true]
        intro hc
        exact hm (List.elem_iff.mp hc)

/-- Inserting an absent key appends the pair at the end. -/
theorem dictInsert_not_mem {α : Type} (l : List (String × α)) (k : String) (v : α)
    (h : k ∉ l.map Prod.fst) : dictInsert l k v = l ++ [(k, v)] := by
  induction l with
  | nil => rfl
  | cons hd t ih =>
      obtain ⟨k', v'⟩ := hd
      have hk : ¬k' = k := fun he => h (by simp [he])
      have ht : k ∉ t.map Prod.fst := fun hm => h (by simp [hm])
      simp [dictInsert, hk, ih ht]

/-- Folding inserts of pairwise-distinct keys appends them in order. -/
theorem foldl_dictInsert_distinct (es : List (String × JVal)) :
    ∀ acc : List (String × JVal), ((acc ++ es).map Prod.fst).Nodup →
      es.foldl (fun a kv => dictInsert a kv.1 kv.2) acc = acc ++ es := by
  induction es with
  | nil =>
      intro acc _
      simp
  | cons e t ih =>
      intro acc h
      obtain ⟨k, v⟩ := e
      have hdisj : (acc.map Prod.fst).Disjoint (k :: t.map Prod.fst) :=
        (List.nodup_append.mp (by simpa using h)).2.2
      have hk : k ∉ acc.map Prod.fst := fun hm => hdisj hm (by simp)
      rw [List.foldl_cons]
      show (t.foldl (fun a kv => dictInsert a kv.1 kv.2) (dictInsert acc k v)) = _
      rw [dictInsert_not_mem acc k v hk]
      rw [ih (acc ++ [(k, v)]) (by simpa using h)]
      simp

/-- Rebuilding a dict from distinct-keyed pairs returns them unchanged. -/
theorem buildDict_distinct (es : List (String × JVal))
    (h : distinctKeys (es.map Prod.fst) = true) : buildDict es = es := by
  have hd : (es.map Prod.fst).Nodup := (distinctKeys_iff _).mp h
  have hr := foldl_dictInsert_distinct es [] (by simpa using hd)
  simpa [buildDict] using hr

/-- Whitespace cannot be a digit. -/
theorem ws_not_digit {c : Char} (h : isWsChar c = true) : isDigitCh c = false := by
  cases hd : isDigitCh c
  · rfl
  · rw [digit_not_ws hd] at h
    cases h

/-- Input whose whitespace-skip starts with a non-digit cannot extend a
number. -/
theorem numStop_of_wsSkip {tail rest : List Char} {c : Char}
    (h : wsSkip tail = c :: rest) (hc : isDigitCh c = false) : numStop tail = true := by
  cases tail with
  | nil => rfl
  | cons a t =>
      by_cases hws : isWsChar a = true
      · simp [numStop, ws_not_digit hws]
      · rw [wsSkip_cons_not _ (by simpa using hws)] at h
        have ha : a = c := List.head_eq_of_cons_eq h
        simp [numStop, ha, hc]

/-- The first character of any rendered value: never whitespace and never a
closing bracket. -/
theorem encVal_head (lvl : Nat) (v : JVal) :
    ∃ c t, encVal lvl v = c :: t ∧ isWsChar c = false ∧ c ≠ ']' ∧ c ≠ '}' := by
  cases v with
  | null => exact ⟨'n', ['u', 'l', 'l'], by simp [encVal], by decide, by decide, by decide⟩
  | bool b =>
      cases b with
      | false => exact ⟨'f', ['a', 'l', 's', 'e'], by simp [encVal], by decide, by decide, by decide⟩
      | true => exact ⟨'t', ['r', 'u', 'e'], by simp [encVal], by decide, by decide, by decide⟩
  | int n =>
      by_cases hn : n < 0
      · exact ⟨'-', natChars n.natAbs, by simp [encVal, intChars, hn], by decide, by decide, by decide⟩
      · obtain ⟨c, t, hct, hc⟩ := natChars_cons n.natAbs
        exact ⟨c, t, by simp [encVal, intChars, hn, hct], digit_not_ws hc,
          isDigitCh_ne hc (by decide), isDigitCh_ne hc (by decide)⟩
  | str s =>
      exact ⟨'"', s.data.flatMap escChar ++ ['"'], by simp [encVal, strLit], by decide,
        by decide, by decide⟩
  | arr items =>
      cases items with
      | nil => exact ⟨'[', [']'], by simp [encVal], by decide, by decide, by decide⟩
      | cons x xs =>
          obtain ⟨t, ht⟩ : ∃ t, encVal lvl (.arr (x :: xs)) = '[' :: t := by
            simp only [encVal]
            exact ⟨_, rfl⟩
          exact ⟨'[', t, ht, by decide, by decide, by decide⟩
  | obj entries =>
      cases entries with
      | nil => exact ⟨'{', ['}'], by simp [encVal], by decide, by decide, by decide⟩
      | cons e es =>
          obtain ⟨t, ht⟩ : ∃ t, encVal lvl (.obj (e :: es)) = '{' :: t := by
            simp only [encVal]
            exact ⟨_, rfl⟩
          exact ⟨'{', t, ht, by decide, by decide, by decide⟩

/-- Whitespace-skipping leaves a rendered value alone. -/
theorem wsSkip_encVal (lvl : Nat) (v : JVal) (x : List Char) :
    wsSkip (encVal lvl v ++ x) = encVal lvl v ++ x := by
  obtain ⟨c, t, hct, hws, _, _⟩ := encVal_head lvl v
  rw [hct, List.cons_append, wsSkip_cons_not _ hws]

/-- The first character of a rendered element run, with the same exclusions
as `encVal_head`. -/
theorem encItems_head (lvl : Nat) (x : JVal) (xs : List JVal) :
    ∃ c t, encItems lvl x xs = c :: t ∧ isWsChar c = false ∧ c ≠ ']' ∧ c ≠ '}' := by
  obtain ⟨c, t, hct, hws, hrb, hcb⟩ := encVal_head lvl x
  cases xs with
  | nil => exact ⟨c, t, by simp [encItems, hct], hws, hrb, hcb⟩
  | cons y ys =>
      refine ⟨c, t ++ ',' :: '\n' :: (pad lvl ++ encItems lvl y ys), ?_, hws, hrb, hcb⟩
      simp [encItems, hct]

/-- Whitespace-skipping leaves a rendered element run alone. -/
theorem wsSkip_encItems (lvl : Nat) (x : JVal) (xs : List JVal) (y : List Char) :
    wsSkip (encItems lvl x xs ++ y) = encItems lvl x xs ++ y := by
  obtain ⟨c, t, hct, hws, _, _⟩ := encItems_head lvl x xs
  rw [hct, List.cons_append, wsSkip_cons_not _ hws]

/-- A rendered entry run starts with the opening quote of its first key. -/
theorem encEntries_head (lvl : Nat) (e : String × JVal) (es : List (String × JVal)) :
    ∃ t, encEntries lvl e es = '"' :: t := by
  obtain ⟨k, v⟩ := e
  cases es with
  | nil =>
      simp only [encEntries, strLit, List.cons_append]
      exact ⟨_, rfl⟩
  | cons f fs =>
      simp only [encEntries, strLit, List.cons_append]
      exact ⟨_, rfl⟩

/-- Whitespace-skipping leaves a rendered entry run alone. -/
theorem wsSkip_encEntries (lvl : Nat) (e : String × JVal) (es : List (String × JVal))
    (y : List Char) :
    wsSkip (encEntries lvl e es ++ y) = encEntries lvl e es ++ y := by
  obtain ⟨t, ht⟩ := encEntries_head lvl e es
  rw [ht, List.cons_append, wsSkip_cons_not _ (by decide)]

/-- Skipping whitespace twice is skipping it once. -/
theorem wsSkip_idem (cs : List Char) : wsSkip (wsSkip cs) = wsSkip cs := by
  induction cs with
  | nil => rfl
  | cons c t ih =>
      by_cases h : isWsChar c = true
      · rw [wsSkip_cons_ws _ h]
        exact ih
      · rw [wsSkip_cons_not _ (by simpa using h), wsSkip_cons_not _ (by simpa using h)]

/-- The value parser only looks at its input's whitespace-skip. -/
theorem parseVal_wsSkip (f : Nat) (cs : List Char) :
    parseVal f cs = parseVal f (wsSkip cs) := by
  cases f with
  | zero => rfl
  | succ f => simp only [parseVal, wsSkip_idem]

/-- The parser's fall-through branch: on a head that opens no keyword,
string, array or object, `parseVal` reads an integer literal. -/
theorem parseVal_default (f : Nat) (c : Char) (t : List Char)
    (hws : isWsChar c = false) (h1 : c ≠ 'n') (h2 : c ≠ 'f') (h3 : c ≠ 't')
    (h4 : c ≠ '"') (h5 : c ≠ '[') (h6 : c ≠ '{') :
    parseVal (f + 1) (c :: t) =
      (match parseIntTok (c :: t) with
       | some (n, r) => some (.int n, r)
       | none => none) := by
  simp only [parseVal]
  rw [wsSkip_cons_not _ hws]
  simp [h1, h2, h3, h4, h5, h6]

mutual
/-- Round-trip of one value: on input whose whitespace-skip is a rendered
well-formed value followed by a remainder that cannot extend a number, the
parser returns exactly that value and that remainder. -/
theorem parse_encVal : ∀ (v : JVal) (lvl fuel : Nat) (cs rest : List Char),
    jsonWF v = true → (encVal lvl v).length < fuel → numStop rest = true →
    wsSkip cs = encVal lvl v ++ rest →
    parseVal fuel cs = some (v, rest)
  | .null, lvl, fuel, cs, rest, _, hf, _, hskip => by
      cases fuel with
      | zero => exact absurd hf (Nat.not_lt_zero _)
      | succ f =>
          rw [parseVal_wsSkip, hskip]
          have he : encVal lvl JVal.null ++ rest = 'n' :: 'u' :: 'l' :: 'l' :: rest := by
            simp only [encVal]
            rfl
          rw [he]
          simp [parseVal, wsSkip, isWsChar]
  | .bool false, lvl, fuel, cs, rest, _, hf, _, hskip => by
      cases fuel with
      | zero => exact absurd hf (Nat.not_lt_zero _)
      | succ f =>
          rw [parseVal_wsSkip, hskip]
          have he : encVal lvl (JVal.bool false) ++ rest = 'f' :: 'a' :: 'l' :: 's' :: 'e' :: rest := by
            simp only [encVal]
            rfl
          rw [he]
          simp [parseVal, wsSkip, isWsChar]
  | .bool true, lvl, fuel, cs, rest, _, hf, _, hskip => by
      cases fuel with
      | zero => exact absurd hf (Nat.not_lt_zero _)
      | succ f =>
          rw [parseVal_wsSkip, hskip]
          have he : encVal lvl (JVal.bool true) ++ rest = 't' :: 'r' :: 'u' :: 'e' :: rest := by
            simp only [encVal]
            rfl
          rw [he]
          simp [parseVal, wsSkip, isWsChar]
  | .int n, lvl, fuel, cs, rest, _, hf, hrest, hskip => by
      cases fuel with
      | zero => exact absurd hf (Nat.not_lt_zero _)
      | succ f =>
          have key := parseIntTok_intChars n rest hrest
          obtain ⟨c, t, hct, hws, h1, h2, h3, h4, h5, h6⟩ :
              ∃ c t, intChars n = c :: t ∧ isWsChar c = false ∧ c ≠ 'n' ∧ c ≠ 'f' ∧
                c ≠ 't' ∧ c ≠ '"' ∧ c ≠ '[' ∧ c ≠ '{' := by
            by_cases hn : n < 0
            · exact ⟨'-', natChars n.natAbs, by simp [intChars, hn], by decide, by decide,
                by decide, by decide, by decide, by decide, by decide⟩
            · obtain ⟨c, t, hct, hc⟩ := natChars_cons n.natAbs
              exact ⟨c, t, by simp [intChars, hn, hct], digit_not_ws hc,
                isDigitCh_ne hc (by decide), isDigitCh_ne hc (by decide),
                isDigitCh_ne hc (by decide), isDigitCh_ne hc (by decide),
                isDigitCh_ne hc (by decide), isDigitCh_ne hc (by decide)⟩
          have henc : encVal lvl (JVal.int n) ++ rest = c :: (t ++ rest) := by
            simp only [encVal]
            rw [hct, List.cons_append]
          have hback : c :: (t ++ rest) = intChars n ++ rest := by
            rw [hct, List.cons_append]
          rw [parseVal_wsSkip, hskip, henc,
            parseVal_default f c (t ++ rest) hws h1 h2 h3 h4 h5 h6, hback, key]
  | .str s, lvl, fuel, cs, rest, _, hf, _, hskip => by
      cases fuel with
      | zero => exact absurd hf (Nat.not_lt_zero _)
      | succ f =>
          rw [parseVal_wsSkip, hskip]
          have he : encVal lvl (JVal.str s) ++ rest =
              '"' :: (s.data.flatMap escChar ++ '"' :: rest) := by
            simp only [encVal, strLit]
            simp
          rw [he]
          simp only [parseVal]
          rw [wsSkip_cons_not _ (by decide)]
          simp only [strBody_encoded]
          rfl
  | .arr [], lvl, fuel, cs, rest, _, hf, _, hskip => by
      cases fuel with
      | zero => exact absurd hf (Nat.not_lt_zero _)
      | succ f =>
          rw [parseVal_wsSkip, hskip]
          have he : encVal lvl (JVal.arr []) ++ rest = '[' :: ']' :: rest := by
            simp only [encVal]
            rfl
          rw [he]
          simp only [parseVal]
          rw [wsSkip_cons_not _ (by decide)]
          have h2 : wsSkip (']' :: rest) = ']' :: rest := wsSkip_cons_not _ (by decide)
          simp [h2]
  | .arr (x :: xs), lvl, fuel, cs, rest, hwf, hf, _, hskip => by
      cases fuel with
      | zero => exact absurd hf (Nat.not_lt_zero _)
      | succ f =>
          have hitems : jsonWFItems (x :: xs) = true := by simpa [jsonWF] using hwf
          rw [parseVal_wsSkip, hskip]
          have he : encVal lvl (JVal.arr (x :: xs)) ++ rest =
              '[' :: ('\n' :: (pad (lvl + 1) ++ (encItems (lvl + 1) x xs ++
                ('\n' :: (pad lvl ++ (']' :: rest)))))) := by
            simp only [encVal]
            simp
          rw [he]
          simp only [parseVal]
          rw [wsSkip_cons_not _ (by decide)]
          have hr : wsSkip ('\n' :: (pad (lvl + 1) ++ (encItems (lvl + 1) x xs ++
              ('\n' :: (pad lvl ++ (']' :: rest)))))) =
              encItems (lvl + 1) x xs ++ ('\n' :: (pad lvl ++ (']' :: rest))) := by
            rw [wsSkip_cons_ws _ (by decide), wsSkip_pad, wsSkip_encItems]
          simp only [hr]
          obtain ⟨c, t, hct, hws, hrb, _⟩ := encItems_head (lvl + 1) x xs
          rw [hct, List.cons_append]
          have hskip2 : wsSkip (c :: (t ++ ('\n' :: (pad lvl ++ (']' :: rest))))) =
              encItems (lvl + 1) x xs ++ ('\n' :: (pad lvl ++ (']' :: rest))) := by
            rw [wsSkip_cons_not _ hws, hct, List.cons_append]
          have htail0 : wsSkip ('\n' :: (pad lvl ++ (']' :: rest))) = ']' :: rest := by
            rw [wsSkip_cons_ws _ (by decide), wsSkip_pad, wsSkip_cons_not _ (by decide)]
          have hflen : (encItems (lvl + 1) x xs).length + 1 < f := by
            simp only [encVal] at hf
            simp [pad] at hf
            omega
          simp only [if_neg hrb]
          rw [parse_encItems x xs (lvl + 1) f _ _ rest hitems hflen hskip2 htail0]
  | .obj [], lvl, fuel, cs, rest, _, hf, _, hskip => by
      cases fuel with
      | zero => exact absurd hf (Nat.not_lt_zero _)
      | succ f =>
          rw [parseVal_wsSkip, hskip]
          have he : encVal lvl (JVal.obj []) ++ rest = '{' :: '}' :: rest := by
            simp only [encVal]
            rfl
          rw [he]
          simp only [parseVal]
          rw [wsSkip_cons_not _ (by decide)]
          have h2 : wsSkip ('}' :: rest) = '}' :: rest := wsSkip_cons_not _ (by decide)
          simp [h2]
  | .obj (e :: es), lvl, fuel, cs, rest, hwf, hf, _, hskip => by
      cases fuel with
      | zero => exact absurd hf (Nat.not_lt_zero _)
      | succ f =>
          have hwf2 : distinctKeys ((e :: es).map Prod.fst) = true ∧
              jsonWFEntries (e :: es) = true := by
            simpa [jsonWF, Bool.and_eq_true] using hwf
          rw [parseVal_wsSkip, hskip]
          have he : encVal lvl (JVal.obj (e :: es)) ++ rest =
              '{' :: ('\n' :: (pad (lvl + 1) ++ (encEntries (lvl + 1) e es ++
                ('\n' :: (pad lvl ++ ('}' :: rest)))))) := by
            simp only [encVal]
            simp
          rw [he]
          simp only [parseVal]
          rw [wsSkip_cons_not _ (by decide)]
          have hr : wsSkip ('\n' :: (pad (lvl + 1) ++ (encEntries (lvl + 1) e es ++
              ('\n' :: (pad lvl ++ ('}' :: rest)))))) =
              encEntries (lvl + 1) e es ++ ('\n' :: (pad lvl ++ ('}' :: rest))) := by
            rw [wsSkip_cons_ws _ (by decide), wsSkip_pad, wsSkip_encEntries]
          simp only [hr]
          obtain ⟨t, hct⟩ := encEntries_head (lvl + 1) e es
          rw [hct, List.cons_append]
          have hskip2 : wsSkip ('"' :: (t ++ ('\n' :: (pad lvl ++ ('}' :: rest))))) =
              encEntries (lvl + 1) e es ++ ('\n' :: (pad lvl ++ ('}' :: rest))) := by
            rw [wsSkip_cons_not _ (by decide), hct, List.cons_append]
          have htail0 : wsSkip ('\n' :: (pad lvl ++ ('}' :: rest))) = '}' :: rest := by
            rw [wsSkip_cons_ws _ (by decide), wsSkip_pad, wsSkip_cons_not _ (by decide)]
          have hflen : (encEntries (lvl + 1) e es).length + 1 < f := by
            simp only [encVal] at hf
            simp [pad] at hf
            omega
          simp only [if_neg (by decide : ¬('"' = '}'))]
          rw [parse_encEntries e es (lvl + 1) f _ _ rest hwf2.2 hflen hskip2 htail0]
          show some (JVal.obj (buildDict (e :: es)), rest) = some (JVal.obj (e :: es), rest)
          rw [buildDict_distinct _ hwf2.1]
  termination_by v _ _ _ _ _ _ _ _ => sizeOf v
  decreasing_by all_goals (simp; try omega)

/-- Round-trip of a nonempty element run: the element parser consumes the
rendered elements and the closing `]` behind them. -/
theorem parse_encItems : ∀ (x : JVal) (xs : List JVal) (lvl fuel : Nat)
    (cs tail rest : List Char),
    jsonWFItems (x :: xs) = true →
    (encItems lvl x xs).length + 1 < fuel →
    wsSkip cs = encItems lvl x xs ++ tail →
    wsSkip tail = ']' :: rest →
    parseItems fuel cs = some (x :: xs, rest)
  | x, [], lvl, fuel, cs, tail, rest, hwf, hf, hskip, htail => by
      cases fuel with
      | zero => exact absurd hf (Nat.not_lt_zero _)
      | succ f =>
          have hx : jsonWF x = true := by simpa [jsonWFItems] using hwf
          have hns : numStop tail = true := numStop_of_wsSkip htail (by decide)
          have hlen : (encVal lvl x).length < f := by
            simp only [encItems] at hf
            omega
          have hskipv : wsSkip cs = encVal lvl x ++ tail := by
            rw [hskip]
            simp [encItems]
          simp only [parseItems]
          rw [parse_encVal x lvl f cs tail hx hlen hns hskipv]
          simp [htail]
  | x, y :: ys, lvl, fuel, cs, tail, rest, hwf, hf, hskip, htail => by
      cases fuel with
      | zero => exact absurd hf (Nat.not_lt_zero _)
      | succ f =>
          have hx : jsonWF x = true ∧ jsonWFItems (y :: ys) = true := by
            simpa [jsonWFItems, Bool.and_eq_true] using hwf
          have hskipv : wsSkip cs =
              encVal lvl x ++ (',' :: '\n' :: (pad lvl ++ (encItems lvl y ys ++ tail))) := by
            rw [hskip]
            simp [encItems]
          have hlenx : (encVal lvl x).length < f := by
            simp only [encItems] at hf
            simp at hf
            omega
          simp only [parseItems]
          rw [parse_encVal x lvl f cs _ hx.1 hlenx (by rfl) hskipv]
          have hcomma : wsSkip (',' :: '\n' :: (pad lvl ++ (encItems lvl y ys ++ tail))) =
              ',' :: '\n' :: (pad lvl ++ (encItems lvl y ys ++ tail)) :=
            wsSkip_cons_not _ (by decide)
          have hskiprec : wsSkip ('\n' :: (pad lvl ++ (encItems lvl y ys ++ tail))) =
              encItems lvl y ys ++ tail := by
            rw [wsSkip_cons_ws _ (by decide), wsSkip_pad, wsSkip_encItems]
          have hlenr : (encItems lvl y ys).length + 1 < f := by
            simp only [encItems] at hf
            simp [pad] at hf
            omega
          simp only [hcomma]
          rw [parse_encItems y ys lvl f _ tail rest hx.2 hlenr hskiprec htail]
  termination_by x xs _ _ _ _ _ _ _ _ _ => 1 + sizeOf x + sizeOf xs
  decreasing_by all_goals (simp; try omega)

/-- Round-trip of a nonempty entry run: the member parser consumes the
rendered `"key": value` pairs and the closing `}` behind them. -/
theorem parse_encEntries : ∀ (e : String × JVal) (es : List (String × JVal))
    (lvl fuel : Nat) (cs tail rest : List Char),
    jsonWFEntries (e :: es) = true →
    (encEntries lvl e es).length + 1 < fuel →
    wsSkip cs = encEntries lvl e es ++ tail →
    wsSkip tail = '}' :: rest →
    parseEntries fuel cs = some (e :: es, rest)
  | (k, v), [], lvl, fuel, cs, tail, rest, hwf, hf, hskip, htail => by
      cases fuel with
      | zero => exact absurd hf (Nat.not_lt_zero _)
      | succ f =>
          have hv : jsonWF v = true := by simpa [jsonWFEntries] using hwf
          have hns : numStop tail = true := numStop_of_wsSkip htail (by decide)
          have hskipk : wsSkip cs =
              '"' :: (k.data.flatMap escChar ++ '"' :: (':' :: ' ' :: (encVal lvl v ++ tail))) := by
            rw [hskip]
            simp [encEntries, strLit]
          have hlen : (encVal lvl v).length < f := by
            simp only [encEntries, strLit] at hf
            simp at hf
            omega
          simp only [parseEntries]
          rw [hskipk]
          simp only [strBody_encoded]
          have hcolon : wsSkip (':' :: ' ' :: (encVal lvl v ++ tail)) =
              ':' :: ' ' :: (encVal lvl v ++ tail) := wsSkip_cons_not _ (by decide)
          simp only [hcolon]
          have hskipv : wsSkip (' ' :: (encVal lvl v ++ tail)) = encVal lvl v ++ tail := by
            rw [wsSkip_cons_ws _ (by decide), wsSkip_encVal]
          rw [parse_encVal v lvl f _ tail hv hlen hns hskipv]
          simp [htail]
  | (k, v), e2 :: es, lvl, fuel, cs, tail, rest, hwf, hf, hskip, htail => by
      cases fuel with
      | zero => exact absurd hf (Nat.not_lt_zero _)
      | succ f =>
          have hv : jsonWF v = true ∧ jsonWFEntries (e2 :: es) = true := by
            simpa [jsonWFEntries, Bool.and_eq_true] using hwf
          have hskipk : wsSkip cs =
              '"' :: (k.data.flatMap escChar ++ '"' :: (':' :: ' ' :: (encVal lvl v ++
                (',' :: '\n' :: (pad lvl ++ (encEntries lvl e2 es ++ tail)))))) := by
            rw [hskip]
            simp [encEntries, strLit]
          have hlenv : (encVal lvl v).length < f := by
            simp only [encEntries, strLit] at hf
            simp [pad] at hf
            omega
          simp only [parseEntries]
          rw [hskipk]
          simp only [strBody_encoded]
          have hcolon : ∀ z : List Char, wsSkip (':' :: ' ' :: z) = ':' :: ' ' :: z :=
            fun z => wsSkip_cons_not _ (by decide)
          simp only [hcolon]
          have hskipv : wsSkip (' ' :: (encVal lvl v ++
              (',' :: '\n' :: (pad lvl ++ (encEntries lvl e2 es ++ tail))))) =
              encVal lvl v ++ (',' :: '\n' :: (pad lvl ++ (encEntries lvl e2 es ++ tail))) := by
            rw [wsSkip_cons_ws _ (by decide), wsSkip_encVal]
          rw [parse_encVal v lvl f _ _ hv.1 hlenv (by rfl) hskipv]
          have hcomma : wsSkip (',' :: '\n' :: (pad lvl ++ (encEntries lvl e2 es ++ tail))) =
              ',' :: '\n' :: (pad lvl ++ (encEntries lvl e2 es ++ tail)) :=
            wsSkip_cons_not _ (by decide)
          simp only [hcomma]
          have hskiprec : wsSkip ('\n' :: (pad lvl ++ (encEntries lvl e2 es ++ tail))) =
              encEntries lvl e2 es ++ tail := by
            rw [wsSkip_cons_ws _ (by decide), wsSkip_pad, wsSkip_encEntries]
          have hlenr : (encEntries lvl e2 es).length + 1 < f := by
            simp only [encEntries, strLit] at hf
            simp [pad] at hf
            omega
          rw [parse_encEntries e2 es lvl f _ tail rest hv.2 hlenr hskiprec htail]
  termination_by e es _ _ _ _ _ _ _ _ _ => 1 + sizeOf e + sizeOf es
  decreasing_by all_goals (simp; try omega)
end

/-- Whole-document round-trip: `json.load` inverts `json.dump(·, indent=4)`
on every well-formed value. -/
theorem jsonLoads_jsonDumps (v : JVal) (hwf : jsonWF v = true) :
    jsonLoads (jsonDumps v) = some v := by
  rw [jsonLoads, jsonDumps]
  have hdata : (String.mk (encVal 0 v)).data = encVal 0 v := rfl
  rw [hdata]
  have hskip : wsSkip (encVal 0 v) = encVal 0 v ++ [] := by
    rw [List.append_nil]
    have h := wsSkip_encVal 0 v []
    rw [List.append_nil] at h
    exact h
  have hp := parse_encVal v 0 ((encVal 0 v).length + 1) (encVal 0 v) [] hwf (by omega) rfl hskip
  rw [hp]
  rfl

/-- C4: writing a well-formed JSON dictionary with `save_json` and reading
it back with `load_json` returns an attribute-accessible mapping with the
same keys and values, whenever the parent directory of the path exists; the
file is written as the `indent=4` serialization, which for a nonempty
dictionary opens with a brace, a newline, and a 4-space indent. -/
theorem save_json_load_json_roundtrip (fs : FS) (path : String)
    (d : List (String × JVal)) (hwf : jsonWF (.obj d) = true)
    (hp : parentOk fs path = true) :
    ∃ fs', save_json path d fs = .ok fs' ∧ load_json path fs' = .ok ⟨d⟩ ∧
      dictLookup fs'.files path = some (.text (jsonDumps (.obj d))) ∧
      (d ≠ [] → (jsonDumps (.obj d)).data.take 6 = ['{', '\n', ' ', ' ', ' ', ' ']) := by
  have hw : save_json path d fs =
      .ok ⟨fs.dirs, dictInsert fs.files path (.text (jsonDumps (.obj d)))⟩ := by
    simp [save_json, FS.writeFile, hp]
  refine ⟨_, hw, ?_, ?_, ?_⟩
  · simp only [load_json, FS.readFile, dictLookup_dictInsert_self]
    rw [jsonLoads_jsonDumps _ hwf]
    rfl
  · exact dictLookup_dictInsert_self _ _ _
  · intro hne
    obtain ⟨e, es, rfl⟩ : ∃ e es, d = e :: es := by
      cases d with
      | nil => exact absurd rfl hne
      | cons e es => exact ⟨e, es, rfl⟩
    show (String.mk (encVal 0 (JVal.obj (e :: es)))).data.take 6 = _
    have hdata : (String.mk (encVal 0 (JVal.obj (e :: es)))).data =
        encVal 0 (JVal.obj (e :: es)) := rfl
    rw [hdata]
    simp only [encVal]
    rfl

/-- Witness for `save_json_load_json_roundtrip` at a one-entry dictionary
written into the working directory of an empty filesystem. -/
theorem save_json_load_json_roundtrip_witness :
    ∃ fs', save_json "metrics.json" [("score", .int 1)] ⟨[], []⟩ = .ok fs' ∧
      load_json "metrics.json" fs' = .ok ⟨[("score", .int 1)]⟩ ∧
      dictLookup fs'.files "metrics.json" =
        some (.text (jsonDumps (.obj [("score", .int 1)]))) ∧
      ([("score", JVal.int 1)] ≠ [] →
        (jsonDumps (.obj [("score", .int 1)])).data.take 6 =
          ['{', '\n', ' ', ' ', ' ', ' ']) :=
  save_json_load_json_roundtrip ⟨[], []⟩ "metrics.json" [("score", .int 1)]
    (by rfl) (by rfl)

end MLProject
